import Mathlib

/-!
Shallow embedding of the `cards` package of github.com/broady/mtg
(`cards/cards.go`, `cards/query.go`): the card data model, catalog
normalization and lookup, the query engine, and the refresh `Store`.

Modelling conventions:
* Go strings are modelled as Lean `String`s and byte-level operations on
  ASCII prefixes/indices as `Char`-list operations (identical on the
  characters occurring in this development).
* Go's `strings.ToLower` is full Unicode; `goToLower` below covers ASCII
  letters plus the ligature `Æ`, the only non-ASCII letter appearing here.
* Go maps with unspecified iteration order are modelled as lists whose
  order stands for the iteration order; map assignment is modelled as
  prepending to an association list read by first match (later assignment
  shadows earlier ones, exactly Go's overwrite semantics).
* Channels (`ready`, `closed`, `notifyCh`) are modelled as latches /
  generation identifiers: `make(chan bool)` allocates a fresh `Nat` id and
  `close` records the id as closed.
-/

namespace Mtg

/-- Model of `strings.ToLower` on one character, restricted to the alphabet used by
this repository: ASCII letters and the ligature `Æ` (Go lower-cases the
full Unicode range; no other non-ASCII upper-case letter appears in the
claims or the data handled here). -/
def goToLowerChar (c : Char) : Char :=
  if c = 'Æ' then 'æ' else c.toLower

/-- Model of `strings.ToLower` (see `goToLowerChar` for the alphabet covered). -/
def goToLower (s : String) : String :=
  String.mk (s.toList.map goToLowerChar)

/-- Model of `strings.HasPrefix(s, p)` (byte prefix = character prefix on the ASCII
prefixes used by `ParseQuery`). -/
def goHasPre (s p : String) : Bool :=
  p.toList.isPrefixOf s.toList

/-- Model of `s[n:]`, Go byte slicing (all slice offsets used in the source land
after an ASCII prefix, so byte offsets coincide with character offsets). -/
def goDrop (s : String) (n : Nat) : String :=
  String.mk (s.toList.drop n)

/-- Model of `strings.Contains(h, n)` over character lists. -/
def goContainsList : List Char → List Char → Bool
  | h, n =>
    n.isPrefixOf h ||
      match h with
      | [] => false
      | _ :: t => goContainsList t n

/-- Model of `strings.Contains(s, sub)`. -/
def goContains (s sub : String) : Bool :=
  goContainsList s.toList sub.toList

/-- Model of `strings.Replace(s, old, new, -1)` where `old` is a single character
(the only shape used by `normalizeCardName`): every occurrence of `old` is
replaced by the character sequence `new`. -/
def goReplaceChar (s : String) (old : Char) (new : List Char) : String :=
  String.mk (s.toList.flatMap (fun c => if c = old then new else [c]))

/-- Accumulator-style splitter for `strings.Fields`: maximal runs of
non-whitespace characters, in order. -/
def goFieldsAux : List Char → List Char → List String
  | [], acc => if acc.isEmpty then [] else [String.mk acc.reverse]
  | c :: rest, acc =>
    if c.isWhitespace then
      if acc.isEmpty then goFieldsAux rest []
      else String.mk acc.reverse :: goFieldsAux rest []
    else goFieldsAux rest (c :: acc)

/-- Model of `strings.Fields(s)` (Go splits on `unicode.IsSpace`; `Char.isWhitespace`
agrees on the ASCII whitespace used here). -/
def goFields (s : String) : List String :=
  goFieldsAux s.toList []

/-- Embedding of `cards.Card` (cards.go). The Go field `Type` is a reserved word in
Lean and is rendered `Typ`; the field `CMC float64` is omitted — it is a
floating-point number no operation of this package ever reads. Defaults
are the Go zero values. -/
structure Card where
  Name : String := ""
  Names : List String := []
  ManaCost : String := ""
  Colors : List String := []
  ColorIdentity : List String := []
  Typ : String := ""
  SuperTypes : List String := []
  Types : List String := []
  SubTypes : List String := []
  Rarity : String := ""
  Text : String := ""
  Flavor : String := ""
  Power : String := ""
  Toughness : String := ""
  Printings : List String := []
  Legalities : List (String × String) := []
  Rulings : List (String × String) := []
  deriving DecidableEq, Repr

/-- Embedding of `cards.Cards` (cards.go). `M` is Go's `map[string]*Card` of which the
code only ever uses the values in (unspecified) iteration order: the list
order stands for that iteration order. `normalized` is the association
list modelling `map[string]*Card` with assignment = prepend and lookup =
first match. -/
structure Cards where
  M : List Card := []
  normalized : List (String × Card) := []
  deriving DecidableEq, Repr

/-- Go map read `m[k]` (missing key → `nil`, modelled as `none`); the most
recently assigned binding wins. -/
def lookupNorm : List (String × Card) → String → Option Card
  | [], _ => none
  | (k', c) :: rest, k => if k' = k then some c else lookupNorm rest k

/-- Embedding of `normalizeCardName` (cards.go:90-93): replace `Æ` by `Ae`, then the
right single-quote by the ASCII apostrophe. -/
def normalizeCardName (s : String) : String :=
  goReplaceChar (goReplaceChar s 'Æ' ['A', 'e']) '’' ['\'']

/-- Go map assignment `c.normalized[k] = card`. -/
def insertNorm (m : List (String × Card)) (k : String) (card : Card) :
    List (String × Card) :=
  (k, card) :: m

/-- The body of the `generateNormalized` loop (cards.go:80-87) for one
card: for a multi-face card insert the component names joined with
`" & "`, `" / "`, `" // "` (case-folded), then always insert the
normalized, case-folded primary name. -/
def addCardNorm (m : List (String × Card)) (card : Card) :
    List (String × Card) :=
  let m :=
    if card.Names ≠ [] then
      insertNorm
        (insertNorm
          (insertNorm m (goToLower (String.intercalate " & " card.Names)) card)
          (goToLower (String.intercalate " / " card.Names)) card)
        (goToLower (String.intercalate " // " card.Names)) card
    else m
  insertNorm m (goToLower (normalizeCardName card.Name)) card

/-- Embedding of `Cards.generateNormalized` (cards.go:79-88). -/
def Cards.generateNormalized (c : Cards) : Cards :=
  { c with normalized := c.M.foldl addCardNorm c.normalized }

/-- Embedding of `Cards.LookupNormalized` (cards.go:75-77). -/
def Cards.LookupNormalized (c : Cards) (cardName : String) : Option Card :=
  lookupNorm c.normalized (goToLower (normalizeCardName cardName))

/-- The set of keys the `generateNormalized` loop inserts for one card
(specification-side inventory of `addCardNorm`'s insertions). -/
def cardKeys (card : Card) : List String :=
  (if card.Names ≠ [] then
    [goToLower (String.intercalate " & " card.Names),
     goToLower (String.intercalate " / " card.Names),
     goToLower (String.intercalate " // " card.Names)]
  else []) ++ [goToLower (normalizeCardName card.Name)]

/-- Embedding of `cards.Query` (query.go:9-15). The Go field `Type` is rendered `Typ`.
`Color` entries are `"w"`, `"u"`, `"b"`, `"r"`, `"g"`, `"m"`, optionally
with a `"!"` prefix (negation). -/
structure Query where
  Name : List String := []
  Rule : List String := []
  Typ : List String := []
  Color : List String := []
  deriving DecidableEq, Repr

/-- Embedding of `shortColor` (query.go:76-90). -/
def shortColor (long : String) : String :=
  if long = "White" then "w"
  else if long = "Blue" then "u"
  else if long = "Black" then "b"
  else if long = "Red" then "r"
  else if long = "Green" then "g"
  else ""

/-- One iteration of the labelled `Color:` loop of `Query.Match`
(query.go:38-71), as a predicate on the card's color list: `true` means
the loop continues to the next color predicate, `false` means
`Match` returns `false`.  Empty predicate → continue; a leading `'!'`
negates; `"m"` against a card with more than one color continues
(non-negated) or fails (negated); otherwise the card's colors are scanned
for one whose `shortColor` equals the letter: a hit continues
(non-negated) or fails (negated); no hit fails (non-negated) or continues
(negated). -/
def matchColorPred (cs : List String) (qc0 : String) : Bool :=
  if qc0.isEmpty then true
  else
    let isNeg := goHasPre qc0 "!"
    let qc := if isNeg then goDrop qc0 1 else qc0
    if qc = "m" && cs.length > 1 then !isNeg
    else if cs.any (fun col => shortColor col = qc) then !isNeg
    else isNeg

/-- Embedding of `Query.Match` (query.go:17-74): every name token must be a substring
of the lower-cased card name, every rule token of the lower-cased rules
text, every type token of the lower-cased type line, and every color
predicate must pass `matchColorPred`. -/
def Query.Match (q : Query) (c : Card) : Bool :=
  q.Name.all (fun qn => goContains (goToLower c.Name) qn) &&
  q.Rule.all (fun qr => goContains (goToLower c.Text) qr) &&
  q.Typ.all (fun qt => goContains (goToLower c.Typ) qt) &&
  q.Color.all (fun qc => matchColorPred c.Colors qc)

/-- Embedding of `validColor` (query.go:122-128). -/
def validColor (c : Char) : Bool :=
  c = 'w' || c = 'u' || c = 'b' || c = 'r' || c = 'g' || c = 'm'

/-- One iteration of the `ParseQuery` token loop (query.go:94-118):
classify a single whitespace-separated token into exactly one predicate
group of the query being built. -/
def parseToken (q : Query) (s : String) : Query :=
  if goHasPre s "o:" then
    { q with Rule := q.Rule ++ [goToLower (goDrop s 2)] }
  else if goHasPre s "t:" then
    { q with Typ := q.Typ ++ [goToLower (goDrop s 2)] }
  else if goHasPre s "c:" then
    { q with Color :=
        ((goToLower (goDrop s 2)).toList.foldl
          (fun acc c => if validColor c then acc ++ [String.mk [c]] else acc)
          q.Color) }
  else if goHasPre s "c!" then
    { q with Color :=
        ((goToLower (goDrop s 2)).toList.foldl
          (fun acc c => if validColor c then acc ++ ["!" ++ String.mk [c]] else acc)
          q.Color) }
  else
    { q with Name := q.Name ++ [goToLower s] }

/-- Embedding of `ParseQuery` (query.go:92-120). -/
def ParseQuery (s : String) : Query :=
  (goFields s).foldl parseToken {}

/-- The color predicates contributed by a `c:`/`c!` token with (already
lower-cased) letters `s`: one predicate per valid letter, invalid letters
dropped (specification-side characterization of the `parseToken` color
loops; `neg` says whether the `"!"` prefix is attached). -/
def validColorStrings (neg : Bool) (s : String) : List String :=
  s.toList.filterMap
    (fun c =>
      if validColor c then
        some (if neg then "!" ++ String.mk [c] else String.mk [c])
      else none)

/-- The body of the `Cards.Query` scan loop (query.go:134-139): keep a
card if it matches the query and its name is not in the `seen` set (the
second accumulator component). -/
def queryStep (query : Query) (acc : List Card × List String) (card : Card) :
    List Card × List String :=
  if query.Match card && !(acc.2.contains card.Name) then
    (acc.1 ++ [card], card.Name :: acc.2)
  else acc

/-- Embedding of `Cards.Query` (query.go:130-141): scan the catalog in iteration
order, keep each card matching the parsed query whose name was not seen
before; the error result is always `nil` (`none`). -/
def Cards.Query (c : Cards) (q : String) : List Card × Option String :=
  let query := ParseQuery q
  let r := c.M.foldl (queryStep query) ([], [])
  (r.1, none)

/-- The outcome of one conditional HTTP fetch in `maybeUpdate`
(cards.go:188-213), as seen by the Go control flow: the status code, the
result of `ioutil.ReadAll` (`readErr`), the result of `json.Unmarshal` on
the body (`decoded`: `none` models a decode error, `some entries` the
decoded card map's values in iteration order), and the `Etag` response
header. -/
structure HTTPResponse where
  statusCode : Nat := 200
  readErr : Bool := false
  decoded : Option (List Card) := none
  etag : String := ""
  deriving DecidableEq, Repr

/-- Result of `hc.Do(req)`: it either fails in transport (`err != nil`) or yields a
response. -/
inductive FetchResult where
  | transportError
  | ok (resp : HTTPResponse)
  deriving DecidableEq, Repr

/-- Embedding of `cards.Store` (cards.go:96-112). Channels are modelled as latches and
generation ids: `closed`/`ready` are the one-shot latches, `notifyCh` is
the id of the current per-generation update channel, `nextCh` the next
fresh channel id, and `closedChs` the set of channel ids that have been
closed. The `Logger`/`Client` fields and the mutex carry no state the
claims mention and are external effects. -/
structure Store where
  updateFrequency : Nat := 1
  closed : Bool := false
  ready : Bool := false
  cards : Option Cards := none
  etag : String := ""
  notifyCh : Nat := 0
  nextCh : Nat := 1
  closedChs : List Nat := []
  deriving DecidableEq, Repr

/-- Embedding of `NewStore` (cards.go:50-60): one-hour refresh interval (one abstract
tick), nothing loaded, fresh `ready`/`closed` latches, notify channel
id `0`. -/
def NewStore : Store :=
  { updateFrequency := 1, closed := false, ready := false, cards := none,
    etag := "", notifyCh := 0, nextCh := 1, closedChs := [] }

/-- Embedding of `Store.Close` (cards.go:115-123): if the `closed` latch already
fired, return the `"already closed"` error; otherwise fire it. Returns
the store state paired with the Go `error` result. -/
def Store.Close (s : Store) : Store × Option String :=
  if s.closed then (s, some "already closed")
  else ({ s with closed := true }, none)

/-- Embedding of `Store.WaitForUpdate` (cards.go:136-147): it captures the current
per-generation notify channel; the returned handle resolves (the spawned
goroutine's `<-notifyCh` unblocks) exactly when that channel is closed.
The function mutates nothing; the captured channel id is the handle. -/
def Store.WaitForUpdate (s : Store) : Nat :=
  s.notifyCh

/-- Whether a handle returned by `WaitForUpdate` has resolved in state
`s`: nothing is ever sent on a notify channel, so `<-notifyCh` unblocks
iff the captured channel has been closed. -/
def handleResolved (s : Store) (ch : Nat) : Bool :=
  s.closedChs.contains ch

/-- Embedding of `Store.maybeUpdate` (cards.go:174-233). Transport error, HTTP 304,
non-200 status, body read error and JSON decode error all return with the
store unchanged. On success: build the new `Cards` with its normalized
index, store the response `Etag`, publish the catalog, replace `notifyCh`
by a fresh channel and close the channel the `notify` local then refers
to (which, as written at cards.go:219-224, is the fresh one), and fire
the one-shot `ready` latch. -/
def Store.maybeUpdate (s : Store) (r : FetchResult) : Store :=
  match r with
  | .transportError => s
  | .ok resp =>
    if resp.statusCode = 304 then s
    else if resp.statusCode ≠ 200 then s
    else if resp.readErr then s
    else
      match resp.decoded with
      | none => s
      | some entries =>
        let cards := Cards.generateNormalized { M := entries, normalized := [] }
        { s with
          etag := resp.etag,
          cards := some cards,
          notifyCh := s.nextCh,
          nextCh := s.nextCh + 1,
          closedChs := s.nextCh :: s.closedChs,
          ready := true }

/-- The scheduled part of `Store.watch` (cards.go:151-161): each
iteration exits if the interval is zero, exits if the `closed` latch has
fired (the `select` case), and otherwise performs one `maybeUpdate` with
the next fetch outcome. Returns the final store and the number of
refreshes performed. The `closed` flag of the store current at each
iteration is consulted, so a `Close` interleaved before an iteration is
observed by it. -/
def watchLoop : Store → List FetchResult → Store × Nat
  | s, [] => (s, 0)
  | s, r :: rest =>
    if s.updateFrequency = 0 then (s, 0)
    else if s.closed then (s, 0)
    else
      let p := watchLoop (s.maybeUpdate r) rest
      (p.1, p.2 + 1)

/-- Embedding of `Store.watch` (cards.go:149-162): one unconditional immediate
refresh, then the scheduled loop. -/
def Store.watch (s : Store) (r0 : FetchResult) (rs : List FetchResult) :
    Store × Nat :=
  let p := watchLoop (s.maybeUpdate r0) rs
  (p.1, p.2 + 1)

/-- Embedding of `Store.Cards` (cards.go:242-249): `<-s.ready` blocks until the
one-shot ready latch has fired, then the current catalog is returned
under the read lock. `none` models "the caller is still blocked". -/
def Store.Cards (s : Store) : Option Cards :=
  if s.ready then s.cards else none

/-- The invariant behind claim C6: once the ready latch has fired, the
current catalog reference is non-null. -/
def cardsInv (s : Store) : Prop :=
  s.ready = true → s.cards.isSome = true

/- Concrete sample data used by witnesses and counterexamples. -/

/-- A sample card. -/
def shockCard : Card :=
  { Name := "Shock", Colors := ["Red"], Typ := "Instant",
    Text := "Shock deals 2 damage to any target." }

/-- A successful fetch outcome delivering `shockCard`. -/
def goodResponse : FetchResult :=
  .ok { statusCode := 200, readErr := false, decoded := some [shockCard],
        etag := "v2" }

/-- Card whose primary name normalizes to `"a"`, processed first. -/
def cardUpperA : Card := { Name := "A" }

/-- A distinct card whose primary name also normalizes to `"a"`,
processed later. -/
def cardLowerA : Card := { Name := "a" }

/-- Catalog whose two distinct cards collide on the normalized key
`"a"`. -/
def catColl : Cards :=
  Cards.generateNormalized { M := [cardUpperA, cardLowerA], normalized := [] }

/-- A multi-face card with component names `["A", "B"]`. -/
def splitCardAB : Card := { Name := "x", Names := ["A", "B"] }

/-- A distinct single-face card whose primary name normalizes to
`"a & b"`, the same key as `splitCardAB`'s first join key. -/
def plainCardAB : Card := { Name := "A & B" }

/-- Catalog in which `plainCardAB`, processed later, collides with
`splitCardAB`'s `" & "` join key. -/
def catSplitColl : Cards :=
  Cards.generateNormalized { M := [splitCardAB, plainCardAB], normalized := [] }

/-- A card whose primary name contains the ligature `Æ`. -/
def aetherCard : Card := { Name := "Æther Vial", Typ := "Artifact" }

/-- Single-card catalog for the ligature lookup edge case. -/
def catAether : Cards :=
  Cards.generateNormalized { M := [aetherCard], normalized := [] }

/-! ## Lemmas about the normalized index -/

theorem lookupNorm_addCardNorm_of_not_mem (m : List (String × Card))
    (card : Card) (k : String) (h : k ∉ cardKeys card) :
    lookupNorm (addCardNorm m card) k = lookupNorm m k := by
  unfold addCardNorm cardKeys at *
  by_cases hn : card.Names = [] <;>
    simp only [hn, if_pos, if_neg, ne_eq, not_true_eq_false, not_false_eq_true,
      ite_true, ite_false, List.nil_append, List.cons_append, List.mem_cons,
      List.mem_singleton, not_or, List.not_mem_nil] at h ⊢ <;>
    simp only [insertNorm, lookupNorm] <;>
    [skip; obtain ⟨h1, h2, h3, h4⟩ := h] <;>
    simp_all [eq_comm]

theorem lookupNorm_addCardNorm_of_mem (m : List (String × Card))
    (card : Card) (k : String) (h : k ∈ cardKeys card) :
    lookupNorm (addCardNorm m card) k = some card := by
  unfold addCardNorm cardKeys at *
  by_cases hn : card.Names = [] <;>
    simp only [hn, if_pos, if_neg, ne_eq, not_true_eq_false, not_false_eq_true,
      ite_true, ite_false, List.nil_append, List.cons_append, List.mem_cons,
      List.mem_singleton, List.not_mem_nil, or_false, false_or] at h ⊢ <;>
    simp only [insertNorm, lookupNorm] <;>
    rcases h with h | h | h | h <;>
    simp_all [eq_comm]

theorem lookupNorm_foldl_of_not_mem (l : List Card) (m : List (String × Card))
    (k : String) (h : ∀ c ∈ l, k ∉ cardKeys c) :
    lookupNorm (l.foldl addCardNorm m) k = lookupNorm m k := by
  induction l generalizing m with
  | nil => rfl
  | cons c0 rest ih =>
    simp only [List.foldl_cons]
    rw [ih _ (fun c hc => h c (List.mem_cons_of_mem _ hc)),
      lookupNorm_addCardNorm_of_not_mem _ _ _ (h c0 (List.mem_cons_self _ _))]

theorem lookupNorm_foldl_of_unique (l : List Card) (m : List (String × Card))
    (card : Card) (k : String) (hmem : card ∈ l) (hk : k ∈ cardKeys card)
    (huniq : ∀ c' ∈ l, c' ≠ card → k ∉ cardKeys c') :
    lookupNorm (l.foldl addCardNorm m) k = some card := by
  induction l generalizing m with
  | nil => cases hmem
  | cons c0 rest ih =>
    by_cases hr : card ∈ rest
    · exact ih _ hr (fun c' hc' => huniq c' (List.mem_cons_of_mem _ hc'))
    · have hc0 : c0 = card := by
        rcases List.mem_cons.mp hmem with h | h
        · exact h.symm
        · exact absurd h hr
      subst hc0
      simp only [List.foldl_cons]
      rw [lookupNorm_foldl_of_not_mem rest _ k
        (fun c' hc' => huniq c' (List.mem_cons_of_mem _ hc')
          (fun he => hr (he ▸ hc')))]
      exact lookupNorm_addCardNorm_of_mem _ _ _ hk

theorem lookupNorm_addCardNorm_isSome (m : List (String × Card))
    (card : Card) (k : String) (h : (lookupNorm m k).isSome = true) :
    (lookupNorm (addCardNorm m card) k).isSome = true := by
  unfold addCardNorm
  by_cases hn : card.Names = [] <;>
    simp only [hn, ne_eq, not_true_eq_false, not_false_eq_true, ite_true,
      ite_false, insertNorm, lookupNorm] <;>
    split_ifs <;> simp_all

theorem lookupNorm_foldl_isSome (l : List Card) (m : List (String × Card))
    (k : String) (h : (lookupNorm m k).isSome = true) :
    (lookupNorm (l.foldl addCardNorm m) k).isSome = true := by
  induction l generalizing m with
  | nil => exact h
  | cons c0 rest ih =>
    exact ih _ (lookupNorm_addCardNorm_isSome _ _ _ h)

theorem lookupNorm_foldl_exists (l : List Card) (m : List (String × Card))
    (card : Card) (k : String) (hmem : card ∈ l) (hk : k ∈ cardKeys card) :
    (lookupNorm (l.foldl addCardNorm m) k).isSome = true := by
  induction l generalizing m with
  | nil => cases hmem
  | cons c0 rest ih =>
    by_cases hr : card ∈ rest
    · exact ih _ hr
    · have hc0 : c0 = card := by
        rcases List.mem_cons.mp hmem with h | h
        · exact h.symm
        · exact absurd h hr
      subst hc0
      simp only [List.foldl_cons]
      exact lookupNorm_foldl_isSome rest _ k
        (by rw [lookupNorm_addCardNorm_of_mem _ _ _ hk]; rfl)

theorem normKey_mem_cardKeys (card : Card) :
    goToLower (normalizeCardName card.Name) ∈ cardKeys card := by
  unfold cardKeys
  by_cases hn : card.Names = [] <;> simp [hn]

/-! ## Claim C4: normalized index entry for every primary name -/

/-- Counterexample to claim C4 as stated: in the catalog built from the
two distinct cards named `"A"` and `"a"`, both primary names normalize to
the key `"a"`; the entry at the first card's normalized primary-name key
maps to the *other* card (the one processed later wins), not back to that
exact card. -/
theorem normalized_primary_collision_cex :
    cardUpperA ∈ catColl.M ∧
    cardLowerA ≠ cardUpperA ∧
    lookupNorm catColl.normalized
      (goToLower (normalizeCardName cardUpperA.Name)) = some cardLowerA ∧
    lookupNorm catColl.normalized
      (goToLower (normalizeCardName cardUpperA.Name)) ≠ some cardUpperA := by
  decide

/-- Claim C4, amended: for every built catalog and every card of its
primary map, the normalized index has an entry at the card's
character-normalized, case-folded primary name; and that entry maps back
to that exact card provided no *other* card of the primary map generates
the same normalized key (on a collision the card processed later in map
iteration order wins). -/
theorem normalized_primary_amended (cards : List Card) (card : Card)
    (hmem : card ∈ cards) :
    (lookupNorm
        (Cards.generateNormalized { M := cards, normalized := [] }).normalized
        (goToLower (normalizeCardName card.Name))).isSome = true ∧
    ((∀ c' ∈ cards, c' ≠ card →
        goToLower (normalizeCardName card.Name) ∉ cardKeys c') →
      lookupNorm
        (Cards.generateNormalized { M := cards, normalized := [] }).normalized
        (goToLower (normalizeCardName card.Name)) = some card) := by
  constructor
  · simpa [Cards.generateNormalized] using
      lookupNorm_foldl_exists cards [] card _ hmem (normKey_mem_cardKeys card)
  · intro huniq
    simpa [Cards.generateNormalized] using
      lookupNorm_foldl_of_unique cards [] card _ hmem
        (normKey_mem_cardKeys card) huniq

/-- Witness for `normalized_primary_amended` at a one-card catalog. -/
theorem normalized_primary_amended_witness :
    (lookupNorm
        (Cards.generateNormalized { M := [shockCard], normalized := [] }).normalized
        (goToLower (normalizeCardName shockCard.Name))).isSome = true ∧
    lookupNorm
        (Cards.generateNormalized { M := [shockCard], normalized := [] }).normalized
        (goToLower (normalizeCardName shockCard.Name)) = some shockCard :=
  ⟨(normalized_primary_amended [shockCard] shockCard (by decide)).1,
   (normalized_primary_amended [shockCard] shockCard (by decide)).2 (by decide)⟩

/-! ## Claim C7: normalized index keys for multi-face cards -/

/-- Counterexample to claim C7 as stated: the card `splitCardAB` has component
names `["A", "B"]`, but in the catalog that also holds the distinct card
`plainCardAB` named `"A & B"` (processed later), the key `"a & b"`
resolves to `plainCardAB`, not to the multi-face card. -/
theorem normalized_joined_collision_cex :
    splitCardAB ∈ catSplitColl.M ∧
    splitCardAB.Names = ["A", "B"] ∧
    plainCardAB ≠ splitCardAB ∧
    lookupNorm catSplitColl.normalized "a & b" = some plainCardAB ∧
    lookupNorm catSplitColl.normalized "a & b" ≠ some splitCardAB := by
  decide

/-- Claim C7, amended: for every built catalog and every multi-face card
of its primary map, each of the component-name joins with `" & "`,
`" / "` and `" // "`, case-folded, is a key of the normalized index
resolving to that card, provided no *other* card of the primary map
generates that same key (on a collision the card processed later in map
iteration order wins). -/
theorem normalized_joined_amended (cards : List Card) (card : Card)
    (sep : String) (hmem : card ∈ cards) (hn : card.Names ≠ [])
    (hsep : sep ∈ [" & ", " / ", " // "])
    (huniq : ∀ c' ∈ cards, c' ≠ card →
      goToLower (String.intercalate sep card.Names) ∉ cardKeys c') :
    lookupNorm
      (Cards.generateNormalized { M := cards, normalized := [] }).normalized
      (goToLower (String.intercalate sep card.Names)) = some card := by
  have hk : goToLower (String.intercalate sep card.Names) ∈ cardKeys card := by
    simp only [List.mem_cons, List.not_mem_nil, or_false] at hsep
    rcases hsep with h | h | h <;> subst h <;> simp [cardKeys, hn]
  simpa [Cards.generateNormalized] using
    lookupNorm_foldl_of_unique cards [] card _ hmem hk huniq

/-- Witness for `normalized_joined_amended`: a one-card catalog holding a
multi-face card with component names `["A", "B"]`. -/
theorem normalized_joined_amended_witness :
    lookupNorm
      (Cards.generateNormalized { M := [splitCardAB], normalized := [] }).normalized
      (goToLower (String.intercalate " & " splitCardAB.Names))
      = some splitCardAB :=
  normalized_joined_amended [splitCardAB] splitCardAB " & "
    (by decide) (by decide) (by decide) (by decide)

/-! ## Claim C10: normalizeCardName substitutes only Æ and the right
single-quote, before case-folding -/

theorem flatMap_keep_of_not_mem (l : List Char) (old : Char)
    (new : List Char) (h : old ∉ l) :
    l.flatMap (fun c => if c = old then new else [c]) = l := by
  induction l with
  | nil => rfl
  | cons c t ih =>
    simp only [List.mem_cons, not_or] at h
    have hco : ¬(c = old) := fun he => h.1 he.symm
    simp [hco, ih h.2]

theorem goReplaceChar_id (s : String) (old : Char) (new : List Char)
    (h : old ∉ s.toList) : goReplaceChar s old new = s := by
  unfold goReplaceChar
  rw [flatMap_keep_of_not_mem _ _ _ h]
  cases s
  rfl

/-- Claim C10: the function `normalizeCardName` substitutes only the uppercase
ligature `Æ` (to `"Ae"`) and the right single-quote (to the apostrophe) —
any string containing neither is left unchanged, and the lowercase
ligature `æ` in particular is not substituted. The substitution runs
before case-folding, so on the single-card catalog for `"Æther Vial"`,
`LookupNormalized` finds the card for every input whose
normalize-then-fold image equals the card's key — e.g. `"ÆTHER VIAL"` and
`"ÆtHeR vIaL"` — but returns not-found for `"æther vial"`, the same input
written with the lowercase ligature: lookup is not fully case-insensitive
at this edge. -/
theorem normalizeCardName_ligature_edge :
    (∀ s : String, (∀ c ∈ s.toList, c ≠ 'Æ' ∧ c ≠ '’') →
      normalizeCardName s = s) ∧
    normalizeCardName "Æ" = "Ae" ∧
    normalizeCardName "’" = "'" ∧
    normalizeCardName "æ" = "æ" ∧
    (∀ input : String,
      goToLower (normalizeCardName input)
          = goToLower (normalizeCardName aetherCard.Name) →
      Cards.LookupNormalized catAether input = some aetherCard) ∧
    Cards.LookupNormalized catAether "ÆTHER VIAL" = some aetherCard ∧
    Cards.LookupNormalized catAether "ÆtHeR vIaL" = some aetherCard ∧
    Cards.LookupNormalized catAether "æther vial" = none := by
  refine ⟨?_, by decide, by decide, by decide, ?_, by decide, by decide, by decide⟩
  · intro s hs
    have h1 : 'Æ' ∉ s.toList := fun hm => (hs _ hm).1 rfl
    have h2 : '’' ∉ s.toList := fun hm => (hs _ hm).2 rfl
    unfold normalizeCardName
    rw [goReplaceChar_id s 'Æ' _ h1, goReplaceChar_id s '’' _ h2]
  · intro input hinput
    have hcat : catAether.normalized = [("aether vial", aetherCard)] := by decide
    have hkey : goToLower (normalizeCardName aetherCard.Name) = "aether vial" := by
      decide
    unfold Cards.LookupNormalized
    rw [hcat, hinput, hkey]
    simp [lookupNorm]

/-- Witness for `normalizeCardName_ligature_edge`: the identity part at a
plain ASCII name and the lookup part at an upper-cased ligature input. -/
theorem normalizeCardName_ligature_edge_witness :
    normalizeCardName "Shock" = "Shock" ∧
    Cards.LookupNormalized catAether "ÆTHER Vial" = some aetherCard :=
  ⟨normalizeCardName_ligature_edge.1 "Shock" (by decide),
   normalizeCardName_ligature_edge.2.2.2.2.1 "ÆTHER Vial" (by decide)⟩

/-! ## Claim C3: color predicate semantics of Query.Match -/

theorem shortColor_ne_m (c : String) : shortColor c ≠ "m" := by
  unfold shortColor
  split_ifs <;> decide

theorem any_shortColor_m_false (cs : List String) :
    cs.any (fun col => shortColor col = "m") = false := by
  rw [List.any_eq_false]
  intro x _
  simp [shortColor_ne_m x]

theorem matchColorPred_letter (cs : List String) (l : String)
    (hempty : l.isEmpty = false) (hneg : goHasPre l "!" = false)
    (hne : l ≠ "m") :
    matchColorPred cs l = cs.any (fun col => shortColor col = l) := by
  cases hany : cs.any (fun col => shortColor col = l) <;>
    simp [matchColorPred, hempty, hneg, hne, hany]

theorem matchColorPred_neg_letter (cs : List String) (l : String)
    (hempty : ("!" ++ l).isEmpty = false)
    (hneg : goHasPre ("!" ++ l) "!" = true)
    (hdrop : goDrop ("!" ++ l) 1 = l) (hne : l ≠ "m") :
    matchColorPred cs ("!" ++ l)
      = !(cs.any (fun col => shortColor col = l)) := by
  cases hany : cs.any (fun col => shortColor col = l) <;>
    simp [matchColorPred, hempty, hneg, hdrop, hne, hany]

/-- Claim C3: the color predicate group of `Query.Match` behaves as
specified — `"m"` passes exactly the cards with more than one color and
`"!m"` fails exactly those; a non-negated single letter passes exactly
when some card color's short form equals the letter; a negated single
letter fails exactly when some card color's short form equals the letter
(and otherwise only continues); and the query `"c!r"` rejects every card
whose colors include `"Red"` while accepting every colorless card. -/
theorem match_color_semantics (cs : List String) (card : Card) (l : String) :
    (matchColorPred cs "m" = decide (cs.length > 1)) ∧
    (matchColorPred cs "!m" = !(decide (cs.length > 1))) ∧
    (l ∈ ["w", "u", "b", "r", "g"] →
      (matchColorPred cs l = cs.any (fun col => shortColor col = l)) ∧
      (matchColorPred cs ("!" ++ l)
          = !(cs.any (fun col => shortColor col = l)))) ∧
    ("Red" ∈ card.Colors → Query.Match (ParseQuery "c!r") card = false) ∧
    (card.Colors = [] → Query.Match (ParseQuery "c!r") card = true) := by
  refine ⟨?_, ?_, ?_, ?_, ?_⟩
  · have h0 : "m".isEmpty = false := by decide
    have h1 : goHasPre "m" "!" = false := by decide
    by_cases hlen : cs.length > 1 <;>
      simp [matchColorPred, h0, h1, hlen, any_shortColor_m_false]
  · have h0 : "!m".isEmpty = false := by decide
    have h1 : goHasPre "!m" "!" = true := by decide
    have h2 : goDrop "!m" 1 = "m" := by decide
    by_cases hlen : cs.length > 1 <;>
      simp [matchColorPred, h0, h1, h2, hlen, any_shortColor_m_false]
  · intro hl
    simp only [List.mem_cons, List.not_mem_nil, or_false] at hl
    rcases hl with h | h | h | h | h <;> subst h <;>
      exact ⟨matchColorPred_letter cs _ (by decide) (by decide) (by decide),
        matchColorPred_neg_letter cs _ (by decide) (by decide) (by decide)
          (by decide)⟩
  · intro hred
    have hq : ParseQuery "c!r"
        = { Name := [], Rule := [], Typ := [], Color := ["!r"] } := by decide
    have hmc : matchColorPred card.Colors "!r" = false := by
      have h := matchColorPred_neg_letter card.Colors "r"
        (by decide) (by decide) (by decide) (by decide)
      have hany : card.Colors.any (fun col => shortColor col = "r") = true :=
        List.any_eq_true.mpr ⟨"Red", hred, by decide⟩
      rw [hany] at h
      simpa using h
    rw [hq]
    simp [Query.Match, hmc]
  · intro hcol
    have hq : ParseQuery "c!r"
        = { Name := [], Rule := [], Typ := [], Color := ["!r"] } := by decide
    rw [hq]
    simp only [Query.Match, hcol, List.all_nil, List.all_cons,
      Bool.true_and, Bool.and_true]
    decide

/-- Witness for `match_color_semantics` at concrete color lists. -/
theorem match_color_semantics_witness :
    (matchColorPred ["Red", "Green"] "m" = decide (2 > 1)) ∧
    (matchColorPred ["Red"] "r"
        = ["Red"].any (fun col => shortColor col = "r")) ∧
    (Query.Match (ParseQuery "c!r") shockCard = false) ∧
    (Query.Match (ParseQuery "c!r") { Name := "Ornithopter" } = true) :=
  ⟨(match_color_semantics ["Red", "Green"] shockCard "r").1,
   ((match_color_semantics ["Red"] shockCard "r").2.2.1 (by decide)).1,
   (match_color_semantics [] shockCard "r").2.2.2.1 (by decide),
   (match_color_semantics [] { Name := "Ornithopter" } "r").2.2.2.2 (by decide)⟩

/-! ## Claim C9: token classification in ParseQuery -/

theorem goHasPre_pair (t : String) (a b : Char) (p : String)
    (hp : p.toList = [a, b]) :
    goHasPre t p = true ↔ ∃ rest, t.toList = a :: b :: rest := by
  unfold goHasPre
  rw [hp]
  cases ht : t.toList with
  | nil => simp [List.isPrefixOf]
  | cons x xs =>
    cases xs with
    | nil => simp [List.isPrefixOf]
    | cons y ys =>
      constructor
      · intro h
        simp only [List.isPrefixOf, Bool.and_eq_true, Bool.and_true,
          beq_iff_eq] at h
        exact ⟨ys, by rw [h.1, h.2]⟩
      · rintro ⟨rest, hr⟩
        obtain ⟨hax, hr⟩ := List.cons.inj hr
        obtain ⟨hby, _⟩ := List.cons.inj hr
        subst hax
        subst hby
        simp [List.isPrefixOf]

theorem goHasPre_pair_false (t : String) (a b a' b' : Char) (p : String)
    (hp : p.toList = [a', b']) (rest : List Char)
    (ht : t.toList = a :: b :: rest) (hne : a ≠ a' ∨ b ≠ b') :
    goHasPre t p = false := by
  rw [Bool.eq_false_iff]
  intro hcontra
  obtain ⟨r', hr⟩ := (goHasPre_pair t a' b' p hp).mp hcontra
  rw [ht] at hr
  rcases hne with hne | hne <;>
    [exact hne (List.cons.inj hr).1;
     exact hne (List.cons.inj (List.cons.inj hr).2).1]

theorem foldl_validColor_filterMap (f : Char → String) (l : List Char)
    (acc : List String) :
    l.foldl (fun acc c => if validColor c then acc ++ [f c] else acc) acc
      = acc ++ l.filterMap
          (fun c => if validColor c then some (f c) else none) := by
  induction l generalizing acc with
  | nil => simp
  | cons c t ih => by_cases h : validColor c <;> simp [h, ih]

/-- Claim C9: the parser `ParseQuery` folds the token classifier over the
whitespace-separated tokens; a token with prefix `"o:"` adds a lowercased
rule predicate, `"t:"` a type predicate, `"c:"` one color predicate per
valid letter of `{w,u,b,r,g,m}` with invalid letters dropped, `"c!"` the
same negated, and every other token — including one with an unrecognized
field-like prefix — becomes a lowercased name-substring predicate. -/
theorem parse_query_classification (s : String) (q : Query) (t : String) :
    (ParseQuery s = (goFields s).foldl parseToken {}) ∧
    (∀ c : Char, validColor c = true ↔ c ∈ ['w', 'u', 'b', 'r', 'g', 'm']) ∧
    (goHasPre t "o:" = true →
      parseToken q t = { q with Rule := q.Rule ++ [goToLower (goDrop t 2)] }) ∧
    (goHasPre t "t:" = true →
      parseToken q t = { q with Typ := q.Typ ++ [goToLower (goDrop t 2)] }) ∧
    (goHasPre t "c:" = true →
      parseToken q t = { q with Color :=
        (q.Color ++ validColorStrings false (goToLower (goDrop t 2))) }) ∧
    (goHasPre t "c!" = true →
      parseToken q t = { q with Color :=
        (q.Color ++ validColorStrings true (goToLower (goDrop t 2))) }) ∧
    (goHasPre t "o:" = false → goHasPre t "t:" = false →
      goHasPre t "c:" = false → goHasPre t "c!" = false →
      parseToken q t = { q with Name := q.Name ++ [goToLower t] }) := by
  refine ⟨rfl, ?_, ?_, ?_, ?_, ?_, ?_⟩
  · intro c
    simp [validColor, or_assoc]
  · intro h
    unfold parseToken
    simp [h]
  · intro h
    obtain ⟨rest, hrest⟩ := (goHasPre_pair t 't' ':' "t:" (by decide)).mp h
    have ho : goHasPre t "o:" = false :=
      goHasPre_pair_false t 't' ':' 'o' ':' "o:" (by decide) rest hrest
        (Or.inl (by decide))
    unfold parseToken
    simp [h, ho]
  · intro h
    obtain ⟨rest, hrest⟩ := (goHasPre_pair t 'c' ':' "c:" (by decide)).mp h
    have ho : goHasPre t "o:" = false :=
      goHasPre_pair_false t 'c' ':' 'o' ':' "o:" (by decide) rest hrest
        (Or.inl (by decide))
    have ht2 : goHasPre t "t:" = false :=
      goHasPre_pair_false t 'c' ':' 't' ':' "t:" (by decide) rest hrest
        (Or.inl (by decide))
    unfold parseToken
    simp only [h, ho, ht2, Bool.false_eq_true, if_false, if_true]
    rw [foldl_validColor_filterMap (fun c => String.mk [c])]
    simp [validColorStrings]
  · intro h
    obtain ⟨rest, hrest⟩ := (goHasPre_pair t 'c' '!' "c!" (by decide)).mp h
    have ho : goHasPre t "o:" = false :=
      goHasPre_pair_false t 'c' '!' 'o' ':' "o:" (by decide) rest hrest
        (Or.inl (by decide))
    have ht2 : goHasPre t "t:" = false :=
      goHasPre_pair_false t 'c' '!' 't' ':' "t:" (by decide) rest hrest
        (Or.inl (by decide))
    have hc : goHasPre t "c:" = false :=
      goHasPre_pair_false t 'c' '!' 'c' ':' "c:" (by decide) rest hrest
        (Or.inr (by decide))
    unfold parseToken
    simp only [h, ho, ht2, hc, Bool.false_eq_true, if_false, if_true]
    rw [foldl_validColor_filterMap (fun c => "!" ++ String.mk [c])]
    simp [validColorStrings]
  · intro h1 h2 h3 h4
    unfold parseToken
    simp [h1, h2, h3, h4]

/-- Witness for `parse_query_classification` at one token of each
kind. -/
theorem parse_query_classification_witness :
    parseToken {} "o:draw"
        = { Rule := ["draw"] } ∧
    parseToken {} "t:instant"
        = { Typ := ["instant"] } ∧
    parseToken {} "c:wz"
        = { Color := ["w"] } ∧
    parseToken {} "c!rm"
        = { Color := ["!r", "!m"] } ∧
    parseToken {} "z:foo"
        = { Name := ["z:foo"] } :=
  ⟨((parse_query_classification "" {} "o:draw").2.2.1 (by decide)).trans
      (by decide),
   ((parse_query_classification "" {} "t:instant").2.2.2.1 (by decide)).trans
      (by decide),
   ((parse_query_classification "" {} "c:wz").2.2.2.2.1 (by decide)).trans
      (by decide),
   ((parse_query_classification "" {} "c!rm").2.2.2.2.2.1 (by decide)).trans
      (by decide),
   ((parse_query_classification "" {} "z:foo").2.2.2.2.2.2 (by decide)
      (by decide) (by decide) (by decide)).trans (by decide)⟩

/-! ## Claim C8: Cards.Query returns no error and deduplicates by name -/

theorem queryStep_seen_iff (query : Query) (acc : List Card × List String)
    (card : Card)
    (hseen : ∀ n, n ∈ acc.2 ↔ n ∈ acc.1.map Card.Name) :
    ∀ n, n ∈ (queryStep query acc card).2
      ↔ n ∈ (queryStep query acc card).1.map Card.Name := by
  intro n
  unfold queryStep
  split
  · simp [List.mem_cons, List.mem_append, hseen n, or_comm]
  · exact hseen n

theorem queryStep_nodup (query : Query) (acc : List Card × List String)
    (card : Card)
    (hseen : ∀ n, n ∈ acc.2 ↔ n ∈ acc.1.map Card.Name)
    (hnd : (acc.1.map Card.Name).Nodup) :
    ((queryStep query acc card).1.map Card.Name).Nodup := by
  unfold queryStep
  split
  · rename_i h
    simp only [Bool.and_eq_true, Bool.not_eq_true'] at h
    have hnm : card.Name ∉ acc.2 := by
      intro hm
      have hc : acc.2.contains card.Name = true := List.elem_iff.mpr hm
      rw [h.2] at hc
      cases hc
    simp only [List.map_append, List.map_cons, List.map_nil,
      List.nodup_middle, List.append_nil, List.nodup_cons]
    exact ⟨fun hm => hnm ((hseen _).mpr hm), hnd⟩
  · exact hnd

theorem queryFold_nodup (query : Query) (l : List Card)
    (acc : List Card × List String)
    (hseen : ∀ n, n ∈ acc.2 ↔ n ∈ acc.1.map Card.Name)
    (hnd : (acc.1.map Card.Name).Nodup) :
    ((l.foldl (queryStep query) acc).1.map Card.Name).Nodup := by
  induction l generalizing acc with
  | nil => exact hnd
  | cons c rest ih =>
    exact ih _ (queryStep_seen_iff query acc c hseen)
      (queryStep_nodup query acc c hseen hnd)

theorem queryFold_mem_of_mem (query : Query) (l : List Card)
    (acc : List Card × List String) (x : Card) (hx : x ∈ acc.1) :
    x ∈ (l.foldl (queryStep query) acc).1 := by
  induction l generalizing acc with
  | nil => exact hx
  | cons c rest ih =>
    apply ih
    unfold queryStep
    split
    · exact List.mem_append_left _ hx
    · exact hx

theorem queryFold_mem (query : Query) (l : List Card)
    (acc : List Card × List String) (x : Card)
    (h : x ∈ (l.foldl (queryStep query) acc).1) :
    x ∈ acc.1 ∨ (x ∈ l ∧ query.Match x = true) := by
  induction l generalizing acc with
  | nil => exact Or.inl h
  | cons c rest ih =>
    rcases ih _ h with h' | h'
    · unfold queryStep at h'
      split at h'
      · rename_i hc
        simp only [Bool.and_eq_true] at hc
        rcases List.mem_append.mp h' with h'' | h''
        · exact Or.inl h''
        · have hxc : x = c := List.mem_singleton.mp h''
          subst hxc
          exact Or.inr ⟨List.mem_cons_self _ _, hc.1⟩
      · exact Or.inl h'
    · exact Or.inr ⟨List.mem_cons_of_mem _ h'.1, h'.2⟩

theorem queryFold_repr (query : Query) (l : List Card)
    (acc : List Card × List String) (card : Card)
    (hmem : card ∈ l) (hmatch : query.Match card = true)
    (hseen : ∀ n, n ∈ acc.2 ↔ n ∈ acc.1.map Card.Name) :
    ∃ y ∈ (l.foldl (queryStep query) acc).1, y.Name = card.Name := by
  induction l generalizing acc with
  | nil => cases hmem
  | cons c rest ih =>
    rcases List.mem_cons.mp hmem with hc | hc
    · subst hc
      simp only [List.foldl_cons]
      by_cases hs : (query.Match card && !(acc.2.contains card.Name)) = true
      · have hcm : card ∈ (queryStep query acc card).1 := by
          unfold queryStep
          rw [if_pos hs]
          exact List.mem_append_right _ (List.mem_singleton.mpr rfl)
        exact ⟨card, queryFold_mem_of_mem query rest _ card hcm, rfl⟩
      · have hcont : card.Name ∈ acc.2 := by
          by_contra hnc
          apply hs
          have hc : acc.2.contains card.Name = false := by
            cases hb : acc.2.contains card.Name with
            | false => rfl
            | true => exact absurd (List.elem_iff.mp hb) hnc
          rw [hmatch, hc]
          rfl
        have hmm : card.Name ∈ acc.1.map Card.Name := (hseen _).mp hcont
        obtain ⟨y, hy, hyn⟩ := List.mem_map.mp hmm
        have hy1 : y ∈ (queryStep query acc card).1 := by
          unfold queryStep
          split
          · exact List.mem_append_left _ hy
          · exact hy
        exact ⟨y, queryFold_mem_of_mem query rest _ y hy1, hyn⟩
    · exact ih _ hc (queryStep_seen_iff query acc c hseen)

/-- Claim C8: for every catalog and query string, `Cards.Query` returns a
`nil` error, the result contains each name at most once, every returned
card belongs to the catalog and matches the parsed query, every matching
catalog card is represented (by name) in the result, and a query whose
predicate groups are all empty matches every card. -/
theorem cards_query_no_error (c : Cards) (q : String) :
    ((c.Query q).2 = none) ∧
    (((c.Query q).1.map Card.Name).Nodup) ∧
    (∀ card ∈ (c.Query q).1,
      card ∈ c.M ∧ (ParseQuery q).Match card = true) ∧
    (∀ card ∈ c.M, (ParseQuery q).Match card = true →
      ∃ y ∈ (c.Query q).1, y.Name = card.Name) ∧
    (∀ (qq : Query) (card : Card),
      qq.Name = [] → qq.Rule = [] → qq.Typ = [] → qq.Color = [] →
      qq.Match card = true) := by
  refine ⟨rfl, ?_, ?_, ?_, ?_⟩
  · exact queryFold_nodup (ParseQuery q) c.M ([], []) (by simp) (by simp)
  · intro card hcard
    rcases queryFold_mem (ParseQuery q) c.M ([], []) card hcard with h | h
    · cases h
    · exact ⟨h.1, h.2⟩
  · intro card hcard hmatch
    exact queryFold_repr (ParseQuery q) c.M ([], []) card hcard hmatch (by simp)
  · intro qq card h1 h2 h3 h4
    simp [Query.Match, h1, h2, h3, h4]

/-- Witness for `cards_query_no_error` on a one-card catalog and the
query `"shock"`. -/
theorem cards_query_no_error_witness :
    ((Cards.Query { M := [shockCard], normalized := [] } "shock").2 = none) ∧
    (shockCard ∈ { M := [shockCard], normalized := [] : Cards }.M ∧
      (ParseQuery "shock").Match shockCard = true) ∧
    (∃ y ∈ (Cards.Query { M := [shockCard], normalized := [] } "shock").1,
      y.Name = shockCard.Name) ∧
    Query.Match {} shockCard = true :=
  ⟨(cards_query_no_error { M := [shockCard], normalized := [] } "shock").1,
   (cards_query_no_error { M := [shockCard], normalized := [] } "shock").2.2.1
      shockCard (by decide),
   (cards_query_no_error { M := [shockCard], normalized := [] } "shock").2.2.2.1
      shockCard (by decide) (by decide),
   (cards_query_no_error { M := [shockCard], normalized := [] } "shock").2.2.2.2
      {} shockCard rfl rfl rfl rfl⟩

/-! ## Claim C2: failed refresh cycles leave the Store unchanged -/

/-- Claim C2: every failing refresh cycle — transport failure, a 304
"not modified" response, a non-2xx status, a body read failure, or a JSON
decode failure — leaves the Store exactly as it was: same catalog, same
cache-validator token, same per-generation update signal; and since the
state is unchanged, `Cards()` and `WaitForUpdate()` callers observe
nothing (no error is surfaced — `maybeUpdate` returns no error at
all). -/
theorem maybeUpdate_failure_no_change (s : Store) (resp : HTTPResponse) :
    (Store.maybeUpdate s .transportError = s) ∧
    (resp.statusCode = 304 → Store.maybeUpdate s (.ok resp) = s) ∧
    (resp.statusCode < 200 ∨ 300 ≤ resp.statusCode →
      Store.maybeUpdate s (.ok resp) = s) ∧
    (resp.readErr = true → Store.maybeUpdate s (.ok resp) = s) ∧
    (resp.decoded = none → Store.maybeUpdate s (.ok resp) = s) ∧
    (∀ r : FetchResult, Store.maybeUpdate s r = s →
      Store.Cards (Store.maybeUpdate s r) = Store.Cards s ∧
      Store.WaitForUpdate (Store.maybeUpdate s r)
        = Store.WaitForUpdate s) := by
  refine ⟨rfl, ?_, ?_, ?_, ?_, ?_⟩
  · intro h
    simp [Store.maybeUpdate, h]
  · intro h
    by_cases h304 : resp.statusCode = 304
    · simp [Store.maybeUpdate, h304]
    · have hne : resp.statusCode ≠ 200 := by omega
      simp [Store.maybeUpdate, h304, hne]
  · intro h
    simp only [Store.maybeUpdate]
    split_ifs <;> simp_all
  · intro h
    simp only [Store.maybeUpdate]
    split_ifs <;> simp [h]
  · intro r h
    rw [h]
    exact ⟨rfl, rfl⟩

/-- Witness for `maybeUpdate_failure_no_change` at concrete failing
responses. -/
theorem maybeUpdate_failure_no_change_witness :
    (Store.maybeUpdate NewStore .transportError = NewStore) ∧
    (Store.maybeUpdate NewStore (.ok { statusCode := 304 }) = NewStore) ∧
    (Store.maybeUpdate NewStore (.ok { statusCode := 500 }) = NewStore) ∧
    (Store.maybeUpdate NewStore
      (.ok { statusCode := 200, readErr := true }) = NewStore) ∧
    (Store.maybeUpdate NewStore
      (.ok { statusCode := 200, decoded := none }) = NewStore) :=
  ⟨(maybeUpdate_failure_no_change NewStore { statusCode := 304 }).1,
   (maybeUpdate_failure_no_change NewStore { statusCode := 304 }).2.1 rfl,
   (maybeUpdate_failure_no_change NewStore { statusCode := 500 }).2.2.1
      (by decide),
   (maybeUpdate_failure_no_change NewStore
      { statusCode := 200, readErr := true }).2.2.2.1 rfl,
   (maybeUpdate_failure_no_change NewStore
      { statusCode := 200, decoded := none }).2.2.2.2.1 rfl⟩

/-! ## Claim C5: Close idempotency contract -/

/-- Claim C5: the first `Close()` returns no error and marks the store
closed; any call on an already-closed store returns the
`"already closed"` error and changes nothing (so every subsequent call
keeps failing); and once the store is closed the scheduled refresh loop
performs no further refreshes. -/
theorem close_idempotency (s : Store) (rs : List FetchResult) :
    (s.closed = false →
      (Store.Close s).2 = none ∧ (Store.Close s).1.closed = true) ∧
    (s.closed = true → Store.Close s = (s, some "already closed")) ∧
    (s.closed = true → watchLoop s rs = (s, 0)) := by
  refine ⟨?_, ?_, ?_⟩
  · intro h
    simp [Store.Close, h]
  · intro h
    simp [Store.Close, h]
  · intro h
    cases rs with
    | nil => rfl
    | cons r rest =>
      by_cases hf : s.updateFrequency = 0 <;> simp [watchLoop, hf, h]

/-- Witness for `close_idempotency`: close a fresh store, close it again,
then run the scheduled loop on the closed store. -/
theorem close_idempotency_witness :
    ((Store.Close NewStore).2 = none ∧
      (Store.Close NewStore).1.closed = true) ∧
    (Store.Close (Store.Close NewStore).1
      = ((Store.Close NewStore).1, some "already closed")) ∧
    (watchLoop (Store.Close NewStore).1 [goodResponse]
      = ((Store.Close NewStore).1, 0)) :=
  ⟨(close_idempotency NewStore []).1 rfl,
   (close_idempotency (Store.Close NewStore).1 []).2.1 (by decide),
   (close_idempotency (Store.Close NewStore).1 [goodResponse]).2.2
      (by decide)⟩

/-! ## Claim C6: Cards blocks until first success, then non-null -/

/-- Claim C6: the operation `Cards()` blocks (returns nothing) until the one-time ready
latch has fired; the invariant "ready implies a non-null catalog
reference" holds of a fresh store and is preserved by `maybeUpdate` and
`Close`; and under that invariant, once ready has fired `Cards()` returns
the current, non-null catalog. -/
theorem cards_ready_invariant (s : Store) (r : FetchResult) :
    cardsInv NewStore ∧
    (cardsInv s → cardsInv (Store.maybeUpdate s r)) ∧
    (cardsInv s → cardsInv (Store.Close s).1) ∧
    (s.ready = false → Store.Cards s = none) ∧
    (cardsInv s → s.ready = true →
      ∃ cat, Store.Cards s = some cat ∧ s.cards = some cat) := by
  refine ⟨?_, ?_, ?_, ?_, ?_⟩
  · intro h
    cases h
  · intro hinv
    cases r with
    | transportError => exact hinv
    | ok resp =>
      simp only [Store.maybeUpdate]
      split_ifs <;> try exact hinv
      cases resp.decoded with
      | none => exact hinv
      | some entries => exact fun _ => rfl
  · intro hinv
    unfold Store.Close
    split_ifs <;> exact hinv
  · intro h
    simp [Store.Cards, h]
  · intro hinv hr
    obtain ⟨cat, hcat⟩ := Option.isSome_iff_exists.mp (hinv hr)
    exact ⟨cat, by simp [Store.Cards, hr, hcat], hcat⟩

/-- Witness for `cards_ready_invariant`: a fresh store blocks, and after
one successful refresh `Cards()` returns the published catalog. -/
theorem cards_ready_invariant_witness :
    cardsInv NewStore ∧
    Store.Cards NewStore = none ∧
    (∃ cat, Store.Cards (Store.maybeUpdate NewStore goodResponse) = some cat ∧
      (Store.maybeUpdate NewStore goodResponse).cards = some cat) :=
  ⟨(cards_ready_invariant NewStore goodResponse).1,
   (cards_ready_invariant NewStore goodResponse).2.2.2.1 rfl,
   (cards_ready_invariant (Store.maybeUpdate NewStore goodResponse)
      goodResponse).2.2.2.2 (fun _ => rfl) (by decide)⟩

/-! ## Claim C1: WaitForUpdate notification (code bug) -/

/-- Claim C1 is violated by the code: `maybeUpdate` (cards.go:219-224)
first stores a freshly made channel in `s.notifyCh` and then closes that
fresh channel, instead of closing the channel existing handles captured.
Evaluated at the failing input — a handle captured on a fresh store
followed by one successful refresh — the captured channel is *not*
closed (the handle never resolves, contradicting the claim and the
function's own doc comment), while the just-installed current channel is
already closed (so any handle captured after the refresh resolves
immediately instead of at the next refresh), even though the new catalog
was published. -/
theorem waitForUpdate_notify_bug :
    handleResolved (Store.maybeUpdate NewStore goodResponse)
      (Store.WaitForUpdate NewStore) = false ∧
    handleResolved (Store.maybeUpdate NewStore goodResponse)
      (Store.maybeUpdate NewStore goodResponse).notifyCh = true ∧
    (Store.maybeUpdate NewStore goodResponse).cards.isSome = true := by
  decide

end Mtg
